import Mathlib

/-!
Shallow embedding of the vote-tally aggregation pipeline of `src/App.tsx`
(with the data shapes of the repository's type declarations and the
extraction boundary of `src/services/geminiService.ts`).

Modelling conventions:
* JS numbers holding vote counts are modelled as `Nat` (the spec declares
  them non-negative integers); the progress percentage, produced by
  `Math.round`, is modelled as `Int` via `round` on `ℚ`.
* A JS object used as a string-keyed map (`Record<string, …>`) is modelled
  as an association list in insertion order, matching `Object.values`
  enumeration order for the (non-index-like) district and candidate-name
  keys this program uses.
* The React state cell updates (`setResults`, `setProgress`, …) become
  explicit state passing over `AppState`; `setProgress` additionally keeps
  a ghost trace of every value ever set during a run, so that statements
  about the sequence of progress values can be made.
* The external collaborators (pdf.js rendering, the Gemini extraction
  call) are parameters: a `PdfFileModel` carries, for each page, the
  outcome of rendering and of extraction as `Except` values.
-/

/-- One candidate's breakdown on one page (interface `CandidateVote`). -/
structure CandidateVote where
  candidateName : String
  classifiedVotes : Nat
  reconfirmVotes : Nat
  totalVotes : Nat
deriving Repr, DecidableEq

/-- One page's extracted result (interface `ElectionPageData`). -/
structure ElectionPageData where
  pageNumber : Option Nat := none
  district : String
  votingType : String
  candidateVotes : List CandidateVote
  validVotes : Nat
  invalidVotes : Nat
  totalVotes : Nat
deriving Repr, DecidableEq

/-- Per-candidate running sub-totals inside one district summary
(the `votesByCandidate` record values of interface `AggregatedData`). -/
structure CandidateAgg where
  classified : Nat
  reconfirm : Nat
  total : Nat
deriving Repr, DecidableEq

/-- One district's summary row (interface `AggregatedData`); the
`votesByCandidate` record is an insertion-ordered association list. -/
structure AggregatedData where
  district : String
  votesByCandidate : List (String × CandidateAgg)
  validTotal : Nat
  invalidTotal : Nat
  grandTotal : Nat
deriving Repr, DecidableEq

/-- The page-index → voting-type override of `processFile`
(`App.tsx`, the `mappedType` chain): fixed inclusive ranges, falling back
to the extractor-provided value. -/
def mapVotingType (i : Nat) (v : String) : String :=
  if 1 ≤ i ∧ i ≤ 26 then "관내사전 (Early In)"
  else if 27 ≤ i ∧ i ≤ 168 then "선거일 (Election Day)"
  else if i = 169 then "관외사전 (Early Out)"
  else if i = 170 then "재외투표 (Overseas)"
  else if i = 171 then "거소/선상 (Absentee)"
  else v

/-- C1 -- Page Classifier: pages 1–26 map to 관내사전, 27–168 to 선거일,
169/170/171 to their fixed labels, every other index (0, 172, …) passes the
extractor-provided value through, and on 1–171 the result ignores that
value. -/
theorem c1_page_classifier (i : Nat) (v : String) :
    (1 ≤ i ∧ i ≤ 26 → mapVotingType i v = "관내사전 (Early In)") ∧
    (27 ≤ i ∧ i ≤ 168 → mapVotingType i v = "선거일 (Election Day)") ∧
    (i = 169 → mapVotingType i v = "관외사전 (Early Out)") ∧
    (i = 170 → mapVotingType i v = "재외투표 (Overseas)") ∧
    (i = 171 → mapVotingType i v = "거소/선상 (Absentee)") ∧
    (i = 0 ∨ 172 ≤ i → mapVotingType i v = v) ∧
    (1 ≤ i ∧ i ≤ 171 → ∀ w, mapVotingType i v = mapVotingType i w) := by
  refine ⟨?_, ?_, ?_, ?_, ?_, ?_, ?_⟩
  · intro h; simp only [mapVotingType, if_pos h]
  · intro h
    have h1 : ¬ (1 ≤ i ∧ i ≤ 26) := by omega
    simp only [mapVotingType, if_neg h1, if_pos h]
  · rintro rfl; rfl
  · rintro rfl; rfl
  · rintro rfl; rfl
  · intro h
    have h1 : ¬ (1 ≤ i ∧ i ≤ 26) := by omega
    have h2 : ¬ (27 ≤ i ∧ i ≤ 168) := by omega
    have h3 : i ≠ 169 := by omega
    have h4 : i ≠ 170 := by omega
    have h5 : i ≠ 171 := by omega
    simp only [mapVotingType, if_neg h1, if_neg h2, if_neg h3, if_neg h4, if_neg h5]
  · intro h w
    by_cases h1 : 1 ≤ i ∧ i ≤ 26
    · simp only [mapVotingType, if_pos h1]
    · by_cases h2 : 27 ≤ i ∧ i ≤ 168
      · simp only [mapVotingType, if_neg h1, if_pos h2]
      · have h3 : i = 169 ∨ i = 170 ∨ i = 171 := by omega
        rcases h3 with rfl | rfl | rfl <;> rfl

/-- Witness for C1: page 169 gets "관외사전 (Early Out)" regardless of the
extractor's value, and page 172 passes through. -/
theorem c1_page_classifier_witness :
    mapVotingType 169 "선거일" = "관외사전 (Early Out)" ∧
    mapVotingType 172 "선거일" = "선거일" := by
  exact ⟨(c1_page_classifier 169 "선거일").2.2.1 rfl,
    (c1_page_classifier 172 "선거일").2.2.2.2.2.1 (Or.inr (by omega))⟩

/-! ## District Aggregator (`districtSummary` in `App.tsx`) -/

/-- The three `+=` lines of `districtSummary`'s inner `forEach`:
add one `CandidateVote` into a candidate's running sub-totals. -/
def addIntoCA (a : CandidateAgg) (cv : CandidateVote) : CandidateAgg :=
  ⟨a.classified + cv.classifiedVotes,
   a.reconfirm + cv.reconfirmVotes,
   a.total + cv.totalVotes⟩

/-- Fold one `CandidateVote` into a district's `votesByCandidate` record:
a zero-initialized entry is created on first encounter of the name, then
classified/reconfirm/total are added (the inner `forEach` body of
`districtSummary`). -/
def addCV (vbc : List (String × CandidateAgg)) (cv : CandidateVote) :
    List (String × CandidateAgg) :=
  let vbc1 := if vbc.any (fun e => e.1 = cv.candidateName) then vbc
              else vbc ++ [(cv.candidateName, ⟨0, 0, 0⟩)]
  vbc1.map (fun e =>
    if e.1 = cv.candidateName then (e.1, addIntoCA e.2 cv) else e)

/-- Fold one page into its district's summary entry: add the page's
valid/invalid/total and every candidate breakdown (the per-page body of
`districtSummary`). -/
def applyPage (entry : AggregatedData) (page : ElectionPageData) : AggregatedData :=
  { entry with
    validTotal := entry.validTotal + page.validVotes
    invalidTotal := entry.invalidTotal + page.invalidVotes
    grandTotal := entry.grandTotal + page.totalVotes
    votesByCandidate := page.candidateVotes.foldl addCV entry.votesByCandidate }

/-- The map key for a page: `page.district || "Unknown"`. -/
def districtKey (page : ElectionPageData) : String :=
  if page.district = "" then "Unknown" else page.district

/-- The zero-initialized summary entry created on first encounter of a
district key. -/
def emptyAgg (k : String) : AggregatedData :=
  { district := k, votesByCandidate := [], validTotal := 0, invalidTotal := 0,
    grandTotal := 0 }

/-- One step of the `results.forEach` in `districtSummary`: create the
district's entry if absent, then fold the page into it. -/
def addPage (acc : List AggregatedData) (page : ElectionPageData) :
    List AggregatedData :=
  let key := districtKey page
  let acc1 := if acc.any (fun e => e.district = key) then acc
              else acc ++ [emptyAgg key]
  acc1.map (fun e => if e.district = key then applyPage e page else e)

/-- `districtSummary`: reduce the results collection into one summary per
district, in insertion (first-seen) order of `Object.values`. -/
def districtSummary (results : List ElectionPageData) : List AggregatedData :=
  results.foldl addPage []

/-- First-seen order of district keys over a results collection. -/
def firstSeenKeys (results : List ElectionPageData) : List String :=
  results.foldl
    (fun ks p => if districtKey p ∈ ks then ks else ks ++ [districtKey p]) []

/-- Look a candidate's sub-totals up in a `votesByCandidate` record,
defaulting to zeros when the name is absent. -/
def lookupCA (vbc : List (String × CandidateAgg)) (c : String) : CandidateAgg :=
  match vbc.find? (fun e => e.1 = c) with
  | some e => e.2
  | none => ⟨0, 0, 0⟩

/-- A district summary's sub-totals for one candidate name. -/
def candTotals (e : AggregatedData) (c : String) : CandidateAgg :=
  lookupCA e.votesByCandidate c

/-- The summary entry for district key `k` (first — and, as proved below,
only — entry with that key). -/
def findSummary (results : List ElectionPageData) (k : String) :
    Option AggregatedData :=
  (districtSummary results).find? (fun e => e.district = k)

/-- The PageRecords whose district key is `k`. -/
def pagesFor (rs : List ElectionPageData) (k : String) : List ElectionPageData :=
  rs.filter (fun p => districtKey p = k)

/-- All CandidateVote entries named `c` across the PageRecords keyed `k`. -/
def matchingCVs (rs : List ElectionPageData) (k c : String) : List CandidateVote :=
  (pagesFor rs k).flatMap (fun p => p.candidateVotes.filter (fun v => v.candidateName = c))

/-! ### Candidate-level lemmas -/

theorem find?_map_upd (cv : CandidateVote) (c : String)
    (vbc : List (String × CandidateAgg)) :
    (vbc.map (fun e => if e.1 = cv.candidateName then (e.1, addIntoCA e.2 cv) else e)).find?
        (fun e => e.1 = c)
      = (vbc.find? (fun e => e.1 = c)).map
          (fun e => if e.1 = cv.candidateName then (e.1, addIntoCA e.2 cv) else e) := by
  induction vbc with
  | nil => rfl
  | cons e l ih =>
    by_cases h : e.1 = c
    · have h1 : ((if e.1 = cv.candidateName then (e.1, addIntoCA e.2 cv) else e).1 = c) := by
        split <;> simpa
      rw [List.map_cons, List.find?_cons_of_pos _ (by simp [h1]),
        List.find?_cons_of_pos _ (by simp [h]), Option.map_some']
    · have h1 : ¬ ((if e.1 = cv.candidateName then (e.1, addIntoCA e.2 cv) else e).1 = c) := by
        split <;> simpa
      rw [List.map_cons, List.find?_cons_of_neg _ (by simp [h1]),
        List.find?_cons_of_neg _ (by simp [h]), ih]

theorem find?_addCV (vbc : List (String × CandidateAgg)) (cv : CandidateVote)
    (c : String) :
    (addCV vbc cv).find? (fun e => e.1 = c) =
      ((if vbc.any (fun e => e.1 = cv.candidateName) then vbc
        else vbc ++ [(cv.candidateName, ⟨0, 0, 0⟩)]).find? (fun e => e.1 = c)).map
          (fun e => if e.1 = cv.candidateName then (e.1, addIntoCA e.2 cv) else e) := by
  unfold addCV
  exact find?_map_upd cv c _

theorem lookupCA_addCV (vbc : List (String × CandidateAgg)) (cv : CandidateVote)
    (c : String) :
    lookupCA (addCV vbc cv) c =
      if cv.candidateName = c then addIntoCA (lookupCA vbc c) cv
      else lookupCA vbc c := by
  have hfind := find?_addCV vbc cv c
  by_cases hany : vbc.any (fun e => e.1 = cv.candidateName) = true
  · rw [if_pos hany] at hfind
    by_cases hc : cv.candidateName = c
    · have hsome : (vbc.find? (fun e => e.1 = c)).isSome := by
        rw [List.find?_isSome]
        rcases List.any_eq_true.mp hany with ⟨x, hx, hpx⟩
        have hx1 : x.1 = c := by rw [of_decide_eq_true hpx, hc]
        exact ⟨x, hx, by simp [hx1]⟩
      obtain ⟨e, he⟩ := Option.isSome_iff_exists.mp hsome
      have hec : e.1 = c := by
        have h2 := List.find?_some he
        simpa using h2
      have hecv : e.1 = cv.candidateName := by rw [hec, hc]
      rw [he, Option.map_some', if_pos hecv] at hfind
      rw [if_pos hc]
      unfold lookupCA
      rw [hfind, he]
    · rw [if_neg hc]
      unfold lookupCA
      cases he : vbc.find? (fun e => e.1 = c) with
      | none => rw [he, Option.map_none'] at hfind; rw [hfind]
      | some e =>
        have hec : e.1 = c := by
          have h2 := List.find?_some he
          simpa using h2
        have hne : ¬ e.1 = cv.candidateName := by rw [hec]; exact fun h => hc h.symm
        rw [he, Option.map_some', if_neg hne] at hfind
        rw [hfind]
  · rw [if_neg hany, List.find?_append] at hfind
    have hnone : vbc.find? (fun e => e.1 = cv.candidateName) = none := by
      rw [List.find?_eq_none]
      intro x hx hpx
      exact hany (List.any_eq_true.mpr ⟨x, hx, hpx⟩)
    by_cases hc : cv.candidateName = c
    · have hnone' : vbc.find? (fun e => e.1 = c) = none := by rw [← hc]; exact hnone
      have hone : ([((cv.candidateName : String), (⟨0, 0, 0⟩ : CandidateAgg))].find?
          (fun e => e.1 = c)) = some (cv.candidateName, ⟨0, 0, 0⟩) :=
        List.find?_cons_of_pos _ (by simp [hc])
      rw [hnone', hone, Option.none_or, Option.map_some', if_pos rfl] at hfind
      rw [if_pos hc]
      unfold lookupCA
      rw [hfind, hnone']
    · have hone : ([((cv.candidateName : String), (⟨0, 0, 0⟩ : CandidateAgg))].find?
          (fun e => e.1 = c)) = none := by
        rw [List.find?_eq_none]
        intro x hx hpx
        simp only [List.mem_singleton] at hx
        subst hx
        exact hc (of_decide_eq_true hpx)
      rw [hone, Option.or_none] at hfind
      rw [if_neg hc]
      unfold lookupCA
      cases he : vbc.find? (fun e => e.1 = c) with
      | none => rw [he, Option.map_none'] at hfind; rw [hfind]
      | some e =>
        have hec : e.1 = c := by
          have h2 := List.find?_some he
          simpa using h2
        have hne : ¬ e.1 = cv.candidateName := by rw [hec]; exact fun h => hc h.symm
        rw [he, Option.map_some', if_neg hne] at hfind
        rw [hfind]

theorem foldl_addIntoCA (l : List CandidateVote) :
    ∀ a : CandidateAgg,
      l.foldl addIntoCA a =
        ⟨a.classified + (l.map (fun v => v.classifiedVotes)).sum,
         a.reconfirm + (l.map (fun v => v.reconfirmVotes)).sum,
         a.total + (l.map (fun v => v.totalVotes)).sum⟩ := by
  induction l with
  | nil => intro a; cases a; simp
  | cons v l ih =>
    intro a
    rw [List.foldl_cons, ih]
    simp only [List.map_cons, List.sum_cons, addIntoCA, CandidateAgg.mk.injEq]
    exact ⟨by omega, by omega, by omega⟩

theorem lookupCA_foldl_addCV (cvs : List CandidateVote) :
    ∀ (vbc : List (String × CandidateAgg)) (c : String),
      lookupCA (cvs.foldl addCV vbc) c =
        (cvs.filter (fun v => v.candidateName = c)).foldl addIntoCA (lookupCA vbc c) := by
  induction cvs with
  | nil => intro vbc c; rfl
  | cons cv cvs ih =>
    intro vbc c
    rw [List.foldl_cons, ih]
    by_cases h : cv.candidateName = c
    · rw [List.filter_cons_of_pos (by simp [h]), List.foldl_cons, lookupCA_addCV, if_pos h]
    · rw [List.filter_cons_of_neg (by simp [h]), lookupCA_addCV, if_neg h]

/-! ### Page-level fold lemmas -/

theorem lookupCA_foldl_applyPage (ps : List ElectionPageData) :
    ∀ (e : AggregatedData) (c : String),
      lookupCA (ps.foldl applyPage e).votesByCandidate c =
        (ps.flatMap (fun p => p.candidateVotes.filter (fun v => v.candidateName = c))).foldl
          addIntoCA (lookupCA e.votesByCandidate c) := by
  induction ps with
  | nil => intro e c; rfl
  | cons p ps ih =>
    intro e c
    rw [List.foldl_cons, ih, List.flatMap_cons, List.foldl_append]
    congr 1
    exact lookupCA_foldl_addCV p.candidateVotes e.votesByCandidate c

theorem validTotal_foldl_applyPage (ps : List ElectionPageData) :
    ∀ e : AggregatedData,
      (ps.foldl applyPage e).validTotal
        = e.validTotal + (ps.map (fun p => p.validVotes)).sum := by
  induction ps with
  | nil => intro e; simp
  | cons p ps ih =>
    intro e
    rw [List.foldl_cons, ih, List.map_cons, List.sum_cons]
    show e.validTotal + p.validVotes + _ = _
    omega

theorem invalidTotal_foldl_applyPage (ps : List ElectionPageData) :
    ∀ e : AggregatedData,
      (ps.foldl applyPage e).invalidTotal
        = e.invalidTotal + (ps.map (fun p => p.invalidVotes)).sum := by
  induction ps with
  | nil => intro e; simp
  | cons p ps ih =>
    intro e
    rw [List.foldl_cons, ih, List.map_cons, List.sum_cons]
    show e.invalidTotal + p.invalidVotes + _ = _
    omega

theorem grandTotal_foldl_applyPage (ps : List ElectionPageData) :
    ∀ e : AggregatedData,
      (ps.foldl applyPage e).grandTotal
        = e.grandTotal + (ps.map (fun p => p.totalVotes)).sum := by
  induction ps with
  | nil => intro e; simp
  | cons p ps ih =>
    intro e
    rw [List.foldl_cons, ih, List.map_cons, List.sum_cons]
    show e.grandTotal + p.totalVotes + _ = _
    omega

theorem district_foldl_applyPage (ps : List ElectionPageData) :
    ∀ e : AggregatedData, (ps.foldl applyPage e).district = e.district := by
  induction ps with
  | nil => intro e; rfl
  | cons p ps ih => intro e; rw [List.foldl_cons, ih]; rfl

/-! ### District-level fold lemmas -/

theorem applyPage_district (e : AggregatedData) (p : ElectionPageData) :
    (applyPage e p).district = e.district := rfl

theorem find?_map_updA (p : ElectionPageData) (k : String)
    (acc : List AggregatedData) :
    (acc.map (fun e => if e.district = districtKey p then applyPage e p else e)).find?
        (fun e => e.district = k)
      = (acc.find? (fun e => e.district = k)).map
          (fun e => if e.district = districtKey p then applyPage e p else e) := by
  induction acc with
  | nil => rfl
  | cons e l ih =>
    by_cases h : e.district = k
    · have h1 : ((if e.district = districtKey p then applyPage e p else e).district = k) := by
        split <;> simp [applyPage_district, h]
      rw [List.map_cons, List.find?_cons_of_pos _ (by simp [h1]),
        List.find?_cons_of_pos _ (by simp [h]), Option.map_some']
    · have h1 : ¬ ((if e.district = districtKey p then applyPage e p else e).district = k) := by
        split <;> simp [applyPage_district, h]
      rw [List.map_cons, List.find?_cons_of_neg _ (by simp [h1]),
        List.find?_cons_of_neg _ (by simp [h]), ih]

theorem find?_addPage (acc : List AggregatedData) (p : ElectionPageData) (k : String) :
    (addPage acc p).find? (fun e => e.district = k) =
      if districtKey p = k then
        some (applyPage ((acc.find? (fun e => e.district = k)).getD (emptyAgg k)) p)
      else acc.find? (fun e => e.district = k) := by
  have hfind : (addPage acc p).find? (fun e => e.district = k)
      = ((if acc.any (fun e => e.district = districtKey p) then acc
          else acc ++ [emptyAgg (districtKey p)]).find? (fun e => e.district = k)).map
          (fun e => if e.district = districtKey p then applyPage e p else e) := by
    unfold addPage
    exact find?_map_updA p k _
  by_cases hany : acc.any (fun e => e.district = districtKey p) = true
  · rw [if_pos hany] at hfind
    by_cases hk : districtKey p = k
    · subst hk
      have hsome : (acc.find? (fun e => e.district = districtKey p)).isSome := by
        rw [List.find?_isSome]
        rcases List.any_eq_true.mp hany with ⟨x, hx, hpx⟩
        exact ⟨x, hx, hpx⟩
      obtain ⟨e, he⟩ := Option.isSome_iff_exists.mp hsome
      have hec : e.district = districtKey p := by
        have h2 := List.find?_some he
        simpa using h2
      rw [he, Option.map_some', if_pos hec] at hfind
      rw [hfind, if_pos rfl, he, Option.getD_some]
    · rw [if_neg hk]
      cases he : acc.find? (fun e => e.district = k) with
      | none => rw [he, Option.map_none'] at hfind; rw [hfind]
      | some e =>
        have hec : e.district = k := by
          have h2 := List.find?_some he
          simpa using h2
        have hne : ¬ e.district = districtKey p := by
          rw [hec]; exact fun h => hk h.symm
        rw [he, Option.map_some', if_neg hne] at hfind
        rw [hfind]
  · rw [if_neg hany, List.find?_append] at hfind
    have hnone : acc.find? (fun e => e.district = districtKey p) = none := by
      rw [List.find?_eq_none]
      intro x hx hpx
      exact hany (List.any_eq_true.mpr ⟨x, hx, hpx⟩)
    by_cases hk : districtKey p = k
    · subst hk
      have hone : ([emptyAgg (districtKey p)].find? (fun e => e.district = districtKey p))
          = some (emptyAgg (districtKey p)) :=
        List.find?_cons_of_pos _ (by simp [emptyAgg])
      rw [hnone, hone, Option.none_or, Option.map_some',
        if_pos (show (emptyAgg (districtKey p)).district = districtKey p from rfl)] at hfind
      rw [hfind, if_pos rfl, hnone, Option.getD_none]
    · have hone : ([emptyAgg (districtKey p)].find? (fun e => e.district = k)) = none := by
        rw [List.find?_eq_none]
        intro x hx hpx
        simp only [List.mem_singleton] at hx
        subst hx
        exact hk ((of_decide_eq_true hpx).symm ▸ rfl)
      rw [hone, Option.or_none] at hfind
      rw [if_neg hk]
      cases he : acc.find? (fun e => e.district = k) with
      | none => rw [he, Option.map_none'] at hfind; rw [hfind]
      | some e =>
        have hec : e.district = k := by
          have h2 := List.find?_some he
          simpa using h2
        have hne : ¬ e.district = districtKey p := by
          rw [hec]; exact fun h => hk h.symm
        rw [he, Option.map_some', if_neg hne] at hfind
        rw [hfind]

/-- Replay, for one district key, the create-if-absent-then-add step of
`districtSummary` over the pages carrying that key. -/
def buildOpt (k : String) (o : Option AggregatedData)
    (ps : List ElectionPageData) : Option AggregatedData :=
  ps.foldl (fun acc p => some (applyPage (acc.getD (emptyAgg k)) p)) o

theorem buildOpt_some (k : String) (ps : List ElectionPageData) :
    ∀ e0 : AggregatedData, buildOpt k (some e0) ps = some (ps.foldl applyPage e0) := by
  induction ps with
  | nil => intro e0; rfl
  | cons p ps ih => intro e0; exact ih (applyPage e0 p)

theorem buildOpt_cons_none (k : String) (p : ElectionPageData)
    (ps : List ElectionPageData) :
    buildOpt k none (p :: ps) = some ((p :: ps).foldl applyPage (emptyAgg k)) := by
  rw [show buildOpt k none (p :: ps)
      = buildOpt k (some (applyPage (emptyAgg k) p)) ps from rfl,
    buildOpt_some, List.foldl_cons]

theorem find?_districtSummary_fold (rs : List ElectionPageData) :
    ∀ (acc : List AggregatedData) (k : String),
      (rs.foldl addPage acc).find? (fun e => e.district = k)
        = buildOpt k (acc.find? (fun e => e.district = k))
            (rs.filter (fun p => districtKey p = k)) := by
  induction rs with
  | nil => intro acc k; rfl
  | cons p rs ih =>
    intro acc k
    rw [List.foldl_cons, ih, find?_addPage]
    by_cases hk : districtKey p = k
    · rw [if_pos hk, List.filter_cons_of_pos (by simp [hk])]
      rfl
    · rw [if_neg hk, List.filter_cons_of_neg (by simp [hk])]

theorem findSummary_eq_buildOpt (rs : List ElectionPageData) (k : String) :
    findSummary rs k = buildOpt k none (pagesFor rs k) := by
  unfold findSummary districtSummary pagesFor
  rw [find?_districtSummary_fold]
  rfl

theorem findSummary_some_spec (rs : List ElectionPageData) (k : String)
    (e : AggregatedData) (h : findSummary rs k = some e) :
    e.district = k ∧
    e.validTotal = ((pagesFor rs k).map (fun p => p.validVotes)).sum ∧
    e.invalidTotal = ((pagesFor rs k).map (fun p => p.invalidVotes)).sum ∧
    e.grandTotal = ((pagesFor rs k).map (fun p => p.totalVotes)).sum ∧
    ∀ c, candTotals e c =
      ⟨((matchingCVs rs k c).map (fun v => v.classifiedVotes)).sum,
       ((matchingCVs rs k c).map (fun v => v.reconfirmVotes)).sum,
       ((matchingCVs rs k c).map (fun v => v.totalVotes)).sum⟩ := by
  rw [findSummary_eq_buildOpt] at h
  cases hps : pagesFor rs k with
  | nil => rw [hps] at h; cases h
  | cons p ps =>
    rw [hps, buildOpt_cons_none] at h
    injection h with h
    subst h
    refine ⟨?_, ?_, ?_, ?_, ?_⟩
    · rw [district_foldl_applyPage]; rfl
    · rw [validTotal_foldl_applyPage]; simp [emptyAgg]
    · rw [invalidTotal_foldl_applyPage]; simp [emptyAgg]
    · rw [grandTotal_foldl_applyPage]; simp [emptyAgg]
    · intro c
      unfold candTotals matchingCVs
      rw [lookupCA_foldl_applyPage, hps]
      rw [show lookupCA (emptyAgg k).votesByCandidate c = ⟨0, 0, 0⟩ from rfl,
        foldl_addIntoCA]
      simp

theorem findSummary_isSome_iff (rs : List ElectionPageData) (k : String) :
    (findSummary rs k).isSome = true ↔ pagesFor rs k ≠ [] := by
  rw [findSummary_eq_buildOpt]
  cases hps : pagesFor rs k with
  | nil => simp [buildOpt]
  | cons p ps => rw [buildOpt_cons_none]; simp

/-! ### Key order and uniqueness -/

theorem map_district_addPage (acc : List AggregatedData) (p : ElectionPageData) :
    (addPage acc p).map (fun e => e.district) =
      if districtKey p ∈ acc.map (fun e => e.district) then acc.map (fun e => e.district)
      else acc.map (fun e => e.district) ++ [districtKey p] := by
  have hmap : ∀ l : List AggregatedData,
      (l.map (fun e => if e.district = districtKey p then applyPage e p else e)).map
          (fun e => e.district) = l.map (fun e => e.district) := by
    intro l
    induction l with
    | nil => rfl
    | cons x t iht =>
      rw [List.map_cons, List.map_cons, List.map_cons, iht]
      congr 1
      split <;> simp [applyPage_district]
  have hmem : (districtKey p ∈ acc.map (fun e => e.district))
      ↔ (acc.any (fun e => e.district = districtKey p) = true) := by
    simp [List.any_eq_true, List.mem_map]
  have h1 : addPage acc p
      = (if acc.any (fun e => e.district = districtKey p) then acc
          else acc ++ [emptyAgg (districtKey p)]).map
          (fun e => if e.district = districtKey p then applyPage e p else e) := rfl
  rw [h1]
  by_cases hany : acc.any (fun e => e.district = districtKey p) = true
  · rw [if_pos hany, hmap, if_pos (hmem.mpr hany)]
  · rw [if_neg hany, hmap, if_neg (fun hm => hany (hmem.mp hm)), List.map_append]
    rfl

theorem map_district_foldl (rs : List ElectionPageData) :
    ∀ acc : List AggregatedData,
      (rs.foldl addPage acc).map (fun e => e.district)
        = rs.foldl (fun ks p => if districtKey p ∈ ks then ks else ks ++ [districtKey p])
            (acc.map (fun e => e.district)) := by
  induction rs with
  | nil => intro acc; rfl
  | cons p rs ih =>
    intro acc
    rw [List.foldl_cons, ih, map_district_addPage, List.foldl_cons]

theorem districtSummary_keys (rs : List ElectionPageData) :
    (districtSummary rs).map (fun e => e.district) = firstSeenKeys rs := by
  unfold districtSummary firstSeenKeys
  rw [map_district_foldl]
  rfl

theorem firstSeenAux_nodup (rs : List ElectionPageData) :
    ∀ ks : List String, ks.Nodup →
      (rs.foldl (fun ks p => if districtKey p ∈ ks then ks else ks ++ [districtKey p])
        ks).Nodup := by
  induction rs with
  | nil => intro ks h; exact h
  | cons p rs ih =>
    intro ks h
    rw [List.foldl_cons]
    apply ih
    by_cases hm : districtKey p ∈ ks
    · rwa [if_pos hm]
    · rw [if_neg hm]
      simp [List.nodup_append, h, hm]

theorem firstSeenKeys_nodup (rs : List ElectionPageData) : (firstSeenKeys rs).Nodup :=
  firstSeenAux_nodup rs [] List.nodup_nil

theorem mem_firstSeenAux (rs : List ElectionPageData) :
    ∀ (ks : List String) (k : String),
      k ∈ rs.foldl (fun ks p => if districtKey p ∈ ks then ks else ks ++ [districtKey p]) ks
        ↔ k ∈ ks ∨ ∃ p ∈ rs, districtKey p = k := by
  induction rs with
  | nil => intro ks k; simp
  | cons p rs ih =>
    intro ks k
    rw [List.foldl_cons, ih]
    by_cases hm : districtKey p ∈ ks
    · rw [if_pos hm]
      constructor
      · rintro (hk | ⟨q, hq, rfl⟩)
        · exact Or.inl hk
        · exact Or.inr ⟨q, List.mem_cons_of_mem p hq, rfl⟩
      · rintro (hk | ⟨q, hq, rfl⟩)
        · exact Or.inl hk
        · rcases List.mem_cons.mp hq with rfl | hq'
          · exact Or.inl hm
          · exact Or.inr ⟨q, hq', rfl⟩
    · rw [if_neg hm]
      constructor
      · rintro (hk | ⟨q, hq, rfl⟩)
        · rcases List.mem_append.mp hk with hk' | hk'
          · exact Or.inl hk'
          · exact Or.inr ⟨p, List.mem_cons_self p rs, (List.mem_singleton.mp hk').symm⟩
        · exact Or.inr ⟨q, List.mem_cons_of_mem p hq, rfl⟩
      · rintro (hk | ⟨q, hq, rfl⟩)
        · exact Or.inl (List.mem_append.mpr (Or.inl hk))
        · rcases List.mem_cons.mp hq with rfl | hq'
          · exact Or.inl (List.mem_append.mpr (Or.inr (List.mem_singleton.mpr rfl)))
          · exact Or.inr ⟨q, hq', rfl⟩

theorem mem_firstSeenKeys (rs : List ElectionPageData) (k : String) :
    k ∈ firstSeenKeys rs ↔ ∃ p ∈ rs, districtKey p = k := by
  rw [firstSeenKeys, mem_firstSeenAux]
  simp

theorem find?_of_mem_nodupKeys :
    ∀ l : List AggregatedData, (l.map (fun e => e.district)).Nodup →
      ∀ e ∈ l, l.find? (fun x => x.district = e.district) = some e := by
  intro l
  induction l with
  | nil => intro _ e he; cases he
  | cons x l ih =>
    intro hnd e he
    rw [List.map_cons, List.nodup_cons] at hnd
    rcases List.mem_cons.mp he with rfl | hel
    · exact List.find?_cons_of_pos _ (by simp)
    · have hxd : ¬ x.district = e.district := fun hcontra => by
        exact hnd.1 (hcontra ▸ List.mem_map_of_mem (fun e => e.district) hel)
      rw [List.find?_cons_of_neg _ (by simp [hxd])]
      exact ih hnd.2 e hel

/-- C2 -- District Aggregator: exactly one summary per distinct district
key (a PageRecord with empty district is keyed "Unknown"), listed in
first-seen-district order, and each summary's valid/invalid/grand totals
and per-candidate classified/reconfirm/total sub-totals are the sums over
all PageRecords with that key. -/
theorem c2_district_aggregator (rs : List ElectionPageData) :
    ((districtSummary rs).map (fun e => e.district)).Nodup ∧
    (districtSummary rs).map (fun e => e.district) = firstSeenKeys rs ∧
    (∀ k, k ∈ (districtSummary rs).map (fun e => e.district)
      ↔ ∃ p ∈ rs, districtKey p = k) ∧
    ∀ e ∈ districtSummary rs,
      e.validTotal = ((pagesFor rs e.district).map (fun p => p.validVotes)).sum ∧
      e.invalidTotal = ((pagesFor rs e.district).map (fun p => p.invalidVotes)).sum ∧
      e.grandTotal = ((pagesFor rs e.district).map (fun p => p.totalVotes)).sum ∧
      ∀ c, candTotals e c =
        ⟨((matchingCVs rs e.district c).map (fun v => v.classifiedVotes)).sum,
         ((matchingCVs rs e.district c).map (fun v => v.reconfirmVotes)).sum,
         ((matchingCVs rs e.district c).map (fun v => v.totalVotes)).sum⟩ := by
  have hkeys := districtSummary_keys rs
  have hnd : ((districtSummary rs).map (fun e => e.district)).Nodup := by
    rw [hkeys]; exact firstSeenKeys_nodup rs
  refine ⟨hnd, hkeys, ?_, ?_⟩
  · intro k; rw [hkeys]; exact mem_firstSeenKeys rs k
  · intro e he
    have hfind : findSummary rs e.district = some e :=
      find?_of_mem_nodupKeys _ hnd e he
    exact (findSummary_some_spec rs e.district e hfind).2

/-- Scenario inputs for the aggregator/exporter witnesses: two pages share
district "애월읍", one page has an empty district. -/
def wPage1 : ElectionPageData :=
  { district := "애월읍", votingType := "선거일",
    candidateVotes := [⟨"이재명", 100, 5, 105⟩],
    validVotes := 105, invalidVotes := 2, totalVotes := 107 }

def wPage2 : ElectionPageData :=
  { district := "애월읍", votingType := "관내사전 (Early In)",
    candidateVotes := [⟨"이재명", 50, 1, 51⟩, ⟨"김문수", 30, 2, 32⟩],
    validVotes := 84, invalidVotes := 1, totalVotes := 85 }

def wPage3 : ElectionPageData :=
  { district := "", votingType := "선거일",
    candidateVotes := [], validVotes := 10, invalidVotes := 0, totalVotes := 10 }

def wResults : List ElectionPageData := [wPage1, wPage2, wPage3]

/-- The merged summary expected for "애월읍" over `wResults`. -/
def wAgg : AggregatedData :=
  { district := "애월읍",
    votesByCandidate := [("이재명", ⟨150, 6, 156⟩), ("김문수", ⟨30, 2, 32⟩)],
    validTotal := 189, invalidTotal := 3, grandTotal := 192 }

/-- Witness for C2: on the 애월읍 scenario the merged entry is a member
and its totals are the sums promised by the theorem. -/
theorem c2_district_aggregator_witness :
    wAgg ∈ districtSummary wResults ∧
    wAgg.validTotal = ((pagesFor wResults wAgg.district).map (fun p => p.validVotes)).sum ∧
    candTotals wAgg "이재명" =
      ⟨((matchingCVs wResults wAgg.district "이재명").map (fun v => v.classifiedVotes)).sum,
       ((matchingCVs wResults wAgg.district "이재명").map (fun v => v.reconfirmVotes)).sum,
       ((matchingCVs wResults wAgg.district "이재명").map (fun v => v.totalVotes)).sum⟩ := by
  have hmem : wAgg ∈ districtSummary wResults := by decide
  have h := ((c2_district_aggregator wResults).2.2.2) wAgg hmem
  exact ⟨hmem, h.1, h.2.2.2 "이재명"⟩

/-- C3 -- permuting the results collection (same PageRecords, reordered)
leaves every district's totals and per-candidate sub-totals unchanged. -/
theorem c3_aggregator_permutation (rs rs' : List ElectionPageData)
    (h : rs.Perm rs') (k : String) :
    ((findSummary rs k).isSome ↔ (findSummary rs' k).isSome) ∧
    ∀ e e', findSummary rs k = some e → findSummary rs' k = some e' →
      e.validTotal = e'.validTotal ∧ e.invalidTotal = e'.invalidTotal ∧
      e.grandTotal = e'.grandTotal ∧ ∀ c, candTotals e c = candTotals e' c := by
  have hperm : (pagesFor rs k).Perm (pagesFor rs' k) :=
    List.Perm.filter _ h
  constructor
  · rw [findSummary_isSome_iff, findSummary_isSome_iff]
    constructor
    · intro hne hcontra
      exact hne (List.eq_nil_of_length_eq_zero (by rw [hperm.length_eq, hcontra]; rfl))
    · intro hne hcontra
      exact hne (List.eq_nil_of_length_eq_zero (by rw [← hperm.length_eq, hcontra]; rfl))
  · intro e e' he he'
    have hs := findSummary_some_spec rs k e he
    have hs' := findSummary_some_spec rs' k e' he'
    have hmcv : ∀ c, (matchingCVs rs k c).Perm (matchingCVs rs' k c) := by
      intro c
      exact List.Perm.flatMap_right _ hperm
    refine ⟨?_, ?_, ?_, ?_⟩
    · rw [hs.2.1, hs'.2.1]
      exact (List.Perm.map _ hperm).sum_eq
    · rw [hs.2.2.1, hs'.2.2.1]
      exact (List.Perm.map _ hperm).sum_eq
    · rw [hs.2.2.2.1, hs'.2.2.2.1]
      exact (List.Perm.map _ hperm).sum_eq
    · intro c
      rw [hs.2.2.2.2 c, hs'.2.2.2.2 c]
      have h1 := (List.Perm.map (fun v => v.classifiedVotes) (hmcv c)).sum_eq
      have h2 := (List.Perm.map (fun v => v.reconfirmVotes) (hmcv c)).sum_eq
      have h3 := (List.Perm.map (fun v => v.totalVotes) (hmcv c)).sum_eq
      rw [h1, h2, h3]

/-- Witness for C3: reversing the 애월읍 scenario list leaves that
district's summary totals untouched. -/
theorem c3_aggregator_permutation_witness :
    findSummary wResults "애월읍" = some wAgg ∧
    findSummary wResults.reverse "애월읍" = some wAgg ∧
    wAgg.validTotal = wAgg.validTotal := by
  have h1 : findSummary wResults "애월읍" = some wAgg := by decide
  have h2 : findSummary wResults.reverse "애월읍" = some wAgg := by decide
  exact ⟨h1, h2, ((c3_aggregator_permutation wResults wResults.reverse
    (List.reverse_perm wResults).symm "애월읍").2 wAgg wAgg h1 h2).1⟩

/-! ## CSV Exporter (`downloadCSV` in `App.tsx`) -/

/-- `r.candidateVotes.find(v => v.candidateName === c)`. -/
def findCV (r : ElectionPageData) (c : String) : Option CandidateVote :=
  r.candidateVotes.find? (fun v => v.candidateName = c)

/-- The three per-row cells for one selected candidate:
`cv?.classifiedVotes || 0`, `cv?.reconfirmVotes || 0`, `cv?.totalVotes || 0`
(0-defaulted when the candidate has no entry on that row). -/
def candCells (r : ElectionPageData) (c : String) : Nat × Nat × Nat :=
  match findCV r c with
  | some cv => (cv.classifiedVotes, cv.reconfirmVotes, cv.totalVotes)
  | none => (0, 0, 0)

/-- A double-quoted CSV field, as the template literals produce. -/
def quoteCSV (s : String) : String := "\"" ++ s ++ "\""

/-- Header cells: the fixed five columns, then three per selected
candidate. -/
def headerCells (sel : List String) : List String :=
  ["투표구", "유형", "유효투표", "무효투표", "총계"]
    ++ sel.flatMap (fun c => [c ++ "_분류", c ++ "_재확인", c ++ "_계"])

/-- One data row's cells for a PageRecord. -/
def rowCells (sel : List String) (r : ElectionPageData) : List String :=
  [quoteCSV r.district, quoteCSV r.votingType, toString r.validVotes,
   toString r.invalidVotes, toString r.totalVotes]
    ++ sel.flatMap (fun c =>
        [toString (candCells r c).1, toString (candCells r c).2.1,
         toString (candCells r c).2.2])

/-- `results.reduce((acc, r) => acc + (find(...)?.classifiedVotes || 0), 0)`. -/
def sumClassified (rs : List ElectionPageData) (c : String) : Nat :=
  rs.foldl (fun acc r => acc + (candCells r c).1) 0

/-- `results.reduce((acc, r) => acc + (find(...)?.reconfirmVotes || 0), 0)`. -/
def sumReconfirm (rs : List ElectionPageData) (c : String) : Nat :=
  rs.foldl (fun acc r => acc + (candCells r c).2.1) 0

/-- `results.reduce((acc, r) => acc + (find(...)?.totalVotes || 0), 0)`. -/
def sumTotalCand (rs : List ElectionPageData) (c : String) : Nat :=
  rs.foldl (fun acc r => acc + (candCells r c).2.2) 0

/-- The cells of the trailing `전체 합계` totals row. -/
def totalRowCells (sel : List String) (rs : List ElectionPageData) : List String :=
  [quoteCSV "전체 합계", quoteCSV "",
   toString (rs.foldl (fun a b => a + b.validVotes) 0),
   toString (rs.foldl (fun a b => a + b.invalidVotes) 0),
   toString (rs.foldl (fun a b => a + b.totalVotes) 0)]
    ++ sel.flatMap (fun c =>
        [toString (sumClassified rs c), toString (sumReconfirm rs c),
         toString (sumTotalCand rs c)])

/-- All rows of the CSV: header, one row per PageRecord in results order,
then the totals row. -/
def csvRows (rs : List ElectionPageData) (sel : List String) : List (List String) :=
  headerCells sel :: (rs.map (rowCells sel) ++ [totalRowCells sel rs])

/-- Cells of one line, comma-joined as the string accumulation builds. -/
def csvLine (cells : List String) : String := String.intercalate "," cells

/-- The accumulated `csv` string: every line followed by a newline. -/
def csvString (rs : List ElectionPageData) (sel : List String) : String :=
  (csvRows rs sel).foldl (fun acc cells => acc ++ csvLine cells ++ "\n") ""

/-- `downloadCSV` as a value: `none` when the guard
`results.length === 0 || selectedCandidates.length === 0` fires, else the
BOM-prefixed CSV text handed to the Blob. -/
def downloadCSV (rs : List ElectionPageData) (sel : List String) : Option String :=
  if rs.length = 0 ∨ sel.length = 0 then none
  else some ("﻿" ++ csvString rs sel)

/-- C4 -- the exporter writes the record's stored `totalVotes` for a
selected candidate's `계` cell verbatim, never `classified + reconfirm`. -/
theorem c4_exporter_total_verbatim (r : ElectionPageData) (c : String)
    (cv : CandidateVote) (h : findCV r c = some cv) :
    (candCells r c).2.2 = cv.totalVotes ∧
    rowCells [c] r =
      [quoteCSV r.district, quoteCSV r.votingType, toString r.validVotes,
       toString r.invalidVotes, toString r.totalVotes,
       toString cv.classifiedVotes, toString cv.reconfirmVotes,
       toString cv.totalVotes] := by
  have hc : candCells r c = (cv.classifiedVotes, cv.reconfirmVotes, cv.totalVotes) := by
    unfold candCells; rw [h]
  constructor
  · rw [hc]
  · simp [rowCells, hc]

/-- A record whose stored per-candidate total (999) disagrees with
classified + reconfirm (1 + 2). -/
def wBadPage : ElectionPageData :=
  { district := "한림읍", votingType := "선거일",
    candidateVotes := [⟨"이재명", 1, 2, 999⟩],
    validVotes := 3, invalidVotes := 0, totalVotes := 3 }

/-- Witness for C4: the `계` cell carries the stored 999, which is not
1 + 2. -/
theorem c4_exporter_total_verbatim_witness :
    (candCells wBadPage "이재명").2.2 = 999 ∧ (999 : Nat) ≠ 1 + 2 := by
  have h := c4_exporter_total_verbatim wBadPage "이재명" ⟨"이재명", 1, 2, 999⟩
    (by decide)
  exact ⟨h.1, by decide⟩

theorem foldl_add_eq_sum {α : Type} (f : α → Nat) (l : List α) :
    ∀ n : Nat, l.foldl (fun a x => a + f x) n = n + (l.map f).sum := by
  induction l with
  | nil => intro n; simp
  | cons x l ih =>
    intro n
    rw [List.foldl_cons, ih, List.map_cons, List.sum_cons]
    omega

/-- C5 -- with nonempty results and selection, the exporter produces the
CSV, whose last row is the `전체 합계` row: quoted label, quoted-empty type
field, then the column-wise sums over all PageRecords — for each selected
candidate counting 0 where it is absent. -/
theorem c5_totals_row (rs : List ElectionPageData) (sel : List String)
    (h1 : rs ≠ []) (h2 : sel ≠ []) :
    downloadCSV rs sel = some ("﻿" ++ csvString rs sel) ∧
    (csvRows rs sel).getLast? = some (totalRowCells sel rs) ∧
    totalRowCells sel rs =
      [quoteCSV "전체 합계", quoteCSV "",
       toString ((rs.map (fun r => r.validVotes)).sum),
       toString ((rs.map (fun r => r.invalidVotes)).sum),
       toString ((rs.map (fun r => r.totalVotes)).sum)]
        ++ sel.flatMap (fun c =>
            [toString ((rs.map (fun r => (candCells r c).1)).sum),
             toString ((rs.map (fun r => (candCells r c).2.1)).sum),
             toString ((rs.map (fun r => (candCells r c).2.2)).sum)]) := by
  refine ⟨?_, ?_, ?_⟩
  · unfold downloadCSV
    rw [if_neg]
    simp only [List.length_eq_zero]
    exact fun hcontra => hcontra.elim h1 h2
  · show ((headerCells sel :: rs.map (rowCells sel)) ++ [totalRowCells sel rs]).getLast?
      = some (totalRowCells sel rs)
    exact List.getLast?_concat _
  · simp only [totalRowCells, sumClassified, sumReconfirm, sumTotalCand,
      foldl_add_eq_sum, Nat.zero_add]

/-- Witness for C5 on the 애월읍 scenario with two selected candidates. -/
theorem c5_totals_row_witness :
    (downloadCSV wResults ["이재명", "김문수"]).isSome = true ∧
    (csvRows wResults ["이재명", "김문수"]).getLast?
      = some (totalRowCells ["이재명", "김문수"] wResults) := by
  have h := c5_totals_row wResults ["이재명", "김문수"] (by decide) (by decide)
  refine ⟨?_, h.2.1⟩
  rw [h.1]
  rfl

/-- C9 -- on a record with duplicate candidate names the exporter's row
cells take only the first matching entry, while the aggregator sums every
matching entry. -/
theorem c9_duplicate_names (r : ElectionPageData) (c : String)
    (cv : CandidateVote) (h : findCV r c = some cv) (e : AggregatedData)
    (he : findSummary [r] (districtKey r) = some e) :
    candCells r c = (cv.classifiedVotes, cv.reconfirmVotes, cv.totalVotes) ∧
    candTotals e c =
      ⟨((r.candidateVotes.filter (fun v => v.candidateName = c)).map
          (fun v => v.classifiedVotes)).sum,
       ((r.candidateVotes.filter (fun v => v.candidateName = c)).map
          (fun v => v.reconfirmVotes)).sum,
       ((r.candidateVotes.filter (fun v => v.candidateName = c)).map
          (fun v => v.totalVotes)).sum⟩ := by
  constructor
  · unfold candCells; rw [h]
  · have hs := findSummary_some_spec [r] (districtKey r) e he
    rw [hs.2.2.2.2 c]
    have hp : pagesFor [r] (districtKey r) = [r] := by simp [pagesFor]
    have hm : matchingCVs [r] (districtKey r) c
        = r.candidateVotes.filter (fun v => v.candidateName = c) := by
      unfold matchingCVs
      rw [hp]
      simp
    rw [hm]

/-- A record carrying two CandidateVote entries with the same name. -/
def wDupPage : ElectionPageData :=
  { district := "한림읍", votingType := "선거일",
    candidateVotes := [⟨"이재명", 1, 2, 3⟩, ⟨"이재명", 10, 20, 30⟩],
    validVotes := 33, invalidVotes := 0, totalVotes := 33 }

/-- The aggregated entry `districtSummary` produces for `[wDupPage]`. -/
def wDupAgg : AggregatedData :=
  { district := "한림읍", votesByCandidate := [("이재명", ⟨11, 22, 33⟩)],
    validTotal := 33, invalidTotal := 0, grandTotal := 33 }

/-- Witness for C9: exporter cells stop at the first entry (total 3), the
aggregator adds both entries (total 33) — the views disagree. -/
theorem c9_duplicate_names_witness :
    candCells wDupPage "이재명" = (1, 2, 3) ∧
    candTotals wDupAgg "이재명" = ⟨11, 22, 33⟩ ∧ (3 : Nat) ≠ 33 := by
  have hfind : findCV wDupPage "이재명" = some ⟨"이재명", 1, 2, 3⟩ := by decide
  have hsum : findSummary [wDupPage] (districtKey wDupPage) = some wDupAgg := by
    decide
  have h := c9_duplicate_names wDupPage "이재명" ⟨"이재명", 1, 2, 3⟩ hfind
    wDupAgg hsum
  refine ⟨h.1, ?_, by decide⟩
  rw [h.2]
  decide

/-! ## Result Accumulator and run control
(`processFile` / `startExtraction` in `App.tsx`) -/

/-- The React state cells the pipeline touches, plus a ghost trace of every
progress value set during the current run (so the sequence of progress
values is statable). -/
structure AppState where
  results : List ElectionPageData
  isProcessing : Bool
  progress : Int
  error : Option String
  progressTrace : List Int
deriving DecidableEq

/-- `setProgress`: update the progress cell, recording the value on the
ghost trace. -/
def setProgress (st : AppState) (v : Int) : AppState :=
  { st with progress := v, progressTrace := st.progressTrace ++ [v] }

/-- One input file together with its external collaborators' behaviour:
whether it is a PDF, the outcome of opening it (arrayBuffer/getDocument,
yielding the page count), per-page rendering (getPage +
renderPageToDataUrl, whose failures escape `processFile`), and per-page
extraction (`extractDataFromImage`, whose failures are caught). -/
structure PdfFileModel where
  isPdf : Bool
  openResult : Except String Nat
  render : Nat → Except String Unit
  extract : Nat → Except String ElectionPageData

/-- `Math.round(((startIndex + i / pagesCount) / totalFiles) * 100)`,
computed over ℚ. -/
def progressValue (startIndex i pagesCount totalFiles : Nat) : Int :=
  round ((((startIndex : ℚ) + (i : ℚ) / (pagesCount : ℚ)) / (totalFiles : ℚ)) * 100)

/-- The record appended for page `i`: extractor data with the classifier's
voting type and the 1-based page number. -/
def mkRecord (i : Nat) (d : ElectionPageData) : ElectionPageData :=
  { d with votingType := mapVotingType i d.votingType, pageNumber := some i }

/-- One iteration of `processFile`'s page loop: render (failures escape
with the state reached so far), then try extraction (failure caught, page
skipped), then recompute progress. -/
def pageStep (f : PdfFileModel) (startIndex totalFiles pagesCount i : Nat)
    (st : AppState) : Except (AppState × String) AppState :=
  match f.render i with
  | .error e => .error (st, e)
  | .ok _ =>
    let st1 := match f.extract i with
      | .ok d => { st with results := st.results ++ [mkRecord i d] }
      | .error _ => st
    .ok (setProgress st1 (progressValue startIndex i pagesCount totalFiles))

/-- `processFile`'s `for (let i = 1; i <= pagesCount; i++)` loop, over the
list of remaining page indices. -/
def pagesLoop (f : PdfFileModel) (startIndex totalFiles pagesCount : Nat) :
    List Nat → AppState → Except (AppState × String) AppState
  | [], st => .ok st
  | i :: rest, st =>
    match pageStep f startIndex totalFiles pagesCount i st with
    | .error e => .error e
    | .ok st' => pagesLoop f startIndex totalFiles pagesCount rest st'

/-- `processFile`: skip non-PDF files, open the document, loop over pages
1..pagesCount. -/
def processFile (f : PdfFileModel) (startIndex totalFiles : Nat)
    (st : AppState) : Except (AppState × String) AppState :=
  if f.isPdf then
    match f.openResult with
    | .error e => .error (st, e)
    | .ok pagesCount =>
      pagesLoop f startIndex totalFiles pagesCount (List.range' 1 pagesCount) st
  else .ok st

/-- `startExtraction`'s `for (let i = 0; i < files.length; i++)` loop. -/
def filesLoop (totalFiles : Nat) :
    List PdfFileModel → Nat → AppState → Except (AppState × String) AppState
  | [], _, st => .ok st
  | f :: fs, idx, st =>
    match processFile f idx totalFiles st with
    | .error e => .error e
    | .ok st' => filesLoop totalFiles fs (idx + 1) st'

/-- The state reset at the start of a run (`setIsProcessing(true);
setResults([]); setError(null)`); the ghost trace restarts with the run. -/
def resetState (st : AppState) : AppState :=
  { st with
    isProcessing := true
    results := []
    error := none
    progressTrace := [] }

/-- `startExtraction`: empty-file-list guard, reset, `setProgress(0)`,
sequential file loop inside `try`, a single `catch` setting the error
message, and a `finally` clearing the processing flag and forcing progress
to 100. -/
def startExtraction (files : List PdfFileModel) (st : AppState) : AppState :=
  if files.length = 0 then st
  else
    setProgress
      { (match filesLoop files.length files 0 (setProgress (resetState st) 0) with
         | .ok s => s
         | .error (s, e) => { s with error := some ("Extraction failed: " ++ e) }) with
        isProcessing := false } 100

/-- C10 -- with an empty selected-file list `startExtraction` returns the
state unchanged: results, progress, error, processing flag (and even the
ghost trace) are all untouched. -/
theorem c10_empty_files_noop (st : AppState) : startExtraction [] st = st := rfl

/-- The record page `i` contributes: `some` of the adjusted record when
extraction succeeds, `none` when it fails. -/
def pageContribution (f : PdfFileModel) (i : Nat) : Option ElectionPageData :=
  ((f.extract i).toOption).map (mkRecord i)

theorem pagesLoop_renders_ok (f : PdfFileModel) (si tf pc : Nat) :
    ∀ (l : List Nat) (st : AppState),
      (∀ i ∈ l, (f.render i).isOk = true) →
      ∃ st', pagesLoop f si tf pc l st = .ok st' ∧
        st'.results = st.results ++ l.filterMap (pageContribution f) ∧
        st'.progressTrace
          = st.progressTrace ++ l.map (fun i => progressValue si i pc tf) ∧
        st'.isProcessing = st.isProcessing ∧ st'.error = st.error := by
  intro l
  induction l with
  | nil => intro st _; exact ⟨st, rfl, by simp, by simp, rfl, rfl⟩
  | cons i rest ih =>
    intro st hr
    have hri : (f.render i).isOk = true := hr i (List.mem_cons_self i rest)
    cases hrender : f.render i with
    | error e => rw [hrender] at hri; cases hri
    | ok u =>
      have hstep : ∃ st1, pageStep f si tf pc i st = .ok st1 ∧
          st1.results = st.results ++ (pageContribution f i).toList ∧
          st1.progressTrace = st.progressTrace ++ [progressValue si i pc tf] ∧
          st1.isProcessing = st.isProcessing ∧ st1.error = st.error := by
        unfold pageStep
        rw [hrender]
        cases hext : f.extract i with
        | ok d =>
          refine ⟨_, rfl, ?_, rfl, rfl, rfl⟩
          simp [pageContribution, hext, setProgress, Except.toOption, Option.toList]
        | error e =>
          refine ⟨_, rfl, ?_, rfl, rfl, rfl⟩
          simp [pageContribution, hext, setProgress, Except.toOption, Option.toList]
      obtain ⟨st1, hs1, hres1, htr1, hip1, herr1⟩ := hstep
      obtain ⟨st', hs', hres', htr', hip', herr'⟩ :=
        ih st1 (fun j hj => hr j (List.mem_cons_of_mem i hj))
      refine ⟨st', ?_, ?_, ?_, ?_, ?_⟩
      · show pagesLoop f si tf pc (i :: rest) st = .ok st'
        unfold pagesLoop
        rw [hs1]
        exact hs'
      · rw [hres', hres1, List.filterMap_cons]
        cases hpc : pageContribution f i <;> simp [hpc, List.append_assoc]
      · rw [htr', htr1, List.map_cons]
        simp [List.append_assoc]
      · rw [hip', hip1]
      · rw [herr', herr1]

/-- C6 -- when page rendering succeeds, every extraction failure is caught
for that page alone: the file's loop completes normally (no file abandoned),
and the appended records are exactly one per successfully extracted page in
page order — failed pages contribute nothing and later pages still run. -/
theorem c6_page_failure_isolation (f : PdfFileModel) (si tf pc : Nat)
    (st : AppState)
    (hr : ∀ i ∈ List.range' 1 pc, (f.render i).isOk = true)
    (hpdf : f.isPdf = true) (hopen : f.openResult = Except.ok pc) :
    (processFile f si tf st).isOk = true ∧
    (∀ st', processFile f si tf st = .ok st' →
      st'.results
        = st.results ++ (List.range' 1 pc).filterMap (pageContribution f)) ∧
    ∀ i ∈ List.range' 1 pc, (f.extract i).isOk = false →
      pageContribution f i = none := by
  obtain ⟨st', hs', hres', _, _, _⟩ :=
    pagesLoop_renders_ok f si tf pc (List.range' 1 pc) st hr
  have hpf : processFile f si tf st = .ok st' := by
    unfold processFile
    rw [hpdf, if_pos rfl, hopen]
    exact hs'
  refine ⟨by rw [hpf]; rfl, ?_, ?_⟩
  · intro st'' hst''
    rw [hpf] at hst''
    injection hst'' with hst''
    subst hst''
    exact hres'
  · intro i _ hfail
    unfold pageContribution
    cases hext : f.extract i with
    | ok d => rw [hext] at hfail; cases hfail
    | error e => rfl

/-- C7 -- however the file loop ends, the `finally` forces progress to 100
and clears the processing flag; a run-level failure surfaces once as a
single error message, and every record already appended before the failure
stays in the results collection (no rollback). -/
theorem c7_run_finalization (files : List PdfFileModel) (st : AppState)
    (h : files ≠ []) :
    (startExtraction files st).progress = 100 ∧
    (startExtraction files st).isProcessing = false ∧
    (∀ s, filesLoop files.length files 0 (setProgress (resetState st) 0)
        = .ok s →
      (startExtraction files st).error = s.error ∧
      (startExtraction files st).results = s.results) ∧
    (∀ s e, filesLoop files.length files 0 (setProgress (resetState st) 0)
        = .error (s, e) →
      (startExtraction files st).error = some ("Extraction failed: " ++ e) ∧
      (startExtraction files st).results = s.results) := by
  have hlen : ¬ files.length = 0 := fun hc => h (List.eq_nil_of_length_eq_zero hc)
  unfold startExtraction
  rw [if_neg hlen]
  cases hloop : filesLoop files.length files 0 (setProgress (resetState st) 0) with
  | ok s =>
    refine ⟨rfl, rfl, ?_, ?_⟩
    · intro s' hs'
      injection hs' with hs'
      subst hs'
      exact ⟨rfl, rfl⟩
    · intro s' e hs'
      cases hs'
  | error se =>
    obtain ⟨s, e⟩ := se
    refine ⟨rfl, rfl, ?_, ?_⟩
    · intro s' hs'
      cases hs'
    · intro s' e' hs'
      injection hs' with hs'
      cases hs'
      exact ⟨rfl, rfl⟩

/-- A file whose document open fails, triggering a run-level failure. -/
def wFailFile : PdfFileModel :=
  { isPdf := true, openResult := Except.error "boom",
    render := fun _ => Except.ok (), extract := fun _ => Except.error "skip" }

/-- An idle initial state. -/
def wState : AppState :=
  { results := [], isProcessing := false, progress := 0, error := none,
    progressTrace := [] }

/-- Witness for C7 on a run whose only file fails to open. -/
theorem c7_run_finalization_witness :
    (startExtraction [wFailFile] wState).progress = 100 ∧
    (startExtraction [wFailFile] wState).isProcessing = false ∧
    (startExtraction [wFailFile] wState).error
      = some ("Extraction failed: " ++ "boom") ∧
    (startExtraction [wFailFile] wState).results
      = (setProgress (resetState wState) 0).results := by
  have h := c7_run_finalization [wFailFile] wState (List.cons_ne_nil _ _)
  have hloop : filesLoop (List.length [wFailFile]) [wFailFile] 0
      (setProgress (resetState wState) 0)
      = .error (setProgress (resetState wState) 0, "boom") := rfl
  have h2 := h.2.2.2 (setProgress (resetState wState) 0) "boom" hloop
  exact ⟨h.1, h.2.1, h2.1, h2.2⟩

/-! ## Progress arithmetic (C8) -/

theorem round_mono_rat {x y : ℚ} (h : x ≤ y) : round x ≤ round y := by
  rw [round_eq, round_eq]
  exact Int.floor_mono (by linarith)

/-- `round((j / totalFiles) * 100)`: the progress level where file `j`
begins (file `j - 1`'s last page lands exactly here). -/
def boundVal (j n : Nat) : Int := round (((j : ℚ) / (n : ℚ)) * 100)

theorem boundVal_nonneg (j n : Nat) : 0 ≤ boundVal j n := by
  unfold boundVal
  have h := round_mono_rat (show (0 : ℚ) ≤ ((j : ℚ) / (n : ℚ)) * 100 by positivity)
  rwa [round_zero] at h

theorem boundVal_mono (j j' n : Nat) (h : j ≤ j') (hn : 1 ≤ n) :
    boundVal j n ≤ boundVal j' n := by
  unfold boundVal
  apply round_mono_rat
  have hn' : (0 : ℚ) < (n : ℚ) := by exact_mod_cast hn
  have h1 : (j : ℚ) / n ≤ (j' : ℚ) / n :=
    (div_le_div_iff_of_pos_right hn').mpr (by exact_mod_cast h)
  linarith

theorem boundVal_le_100 (j n : Nat) (hj : j ≤ n) (hn : 1 ≤ n) :
    boundVal j n ≤ 100 := by
  unfold boundVal
  have hn' : (0 : ℚ) < (n : ℚ) := by exact_mod_cast hn
  have h1 : (j : ℚ) / n ≤ 1 := (div_le_one hn').mpr (by exact_mod_cast hj)
  have h2 : ((j : ℚ) / n) * 100 ≤ 100 := by linarith
  have h3 := round_mono_rat h2
  rwa [show round (100 : ℚ) = 100 by
    rw [show (100 : ℚ) = ((100 : ℤ) : ℚ) by norm_num, round_intCast]] at h3

theorem progressValue_lb (k i pc n : Nat) (hn : 1 ≤ n) :
    boundVal k n ≤ progressValue k i pc n := by
  unfold boundVal progressValue
  apply round_mono_rat
  have hn' : (0 : ℚ) < (n : ℚ) := by exact_mod_cast hn
  have h0 : (0 : ℚ) ≤ (i : ℚ) / (pc : ℚ) := by positivity
  have h1 : (k : ℚ) / n ≤ ((k : ℚ) + (i : ℚ) / (pc : ℚ)) / n :=
    (div_le_div_iff_of_pos_right hn').mpr (by linarith)
  linarith

theorem progressValue_ub (k i pc n : Nat) (hi : i ≤ pc) (hpc : 1 ≤ pc)
    (hn : 1 ≤ n) : progressValue k i pc n ≤ boundVal (k + 1) n := by
  unfold boundVal progressValue
  apply round_mono_rat
  have hn' : (0 : ℚ) < (n : ℚ) := by exact_mod_cast hn
  have hpc' : (0 : ℚ) < (pc : ℚ) := by exact_mod_cast hpc
  have h1 : (i : ℚ) / (pc : ℚ) ≤ 1 := (div_le_one hpc').mpr (by exact_mod_cast hi)
  have h2 : (k : ℚ) + (i : ℚ) / (pc : ℚ) ≤ ((k + 1 : Nat) : ℚ) := by
    push_cast
    linarith
  have h3 : ((k : ℚ) + (i : ℚ) / (pc : ℚ)) / n ≤ ((k + 1 : Nat) : ℚ) / n :=
    (div_le_div_iff_of_pos_right hn').mpr h2
  linarith

theorem progressValue_mono_page (k pc n i i' : Nat) (h : i ≤ i') (hpc : 1 ≤ pc)
    (hn : 1 ≤ n) : progressValue k i pc n ≤ progressValue k i' pc n := by
  unfold progressValue
  apply round_mono_rat
  have hn' : (0 : ℚ) < (n : ℚ) := by exact_mod_cast hn
  have hpc' : (0 : ℚ) < (pc : ℚ) := by exact_mod_cast hpc
  have h1 : (i : ℚ) / pc ≤ (i' : ℚ) / pc :=
    (div_le_div_iff_of_pos_right hpc').mpr (by exact_mod_cast h)
  have h2 : ((k : ℚ) + (i : ℚ) / pc) / n ≤ ((k : ℚ) + (i' : ℚ) / pc) / n :=
    (div_le_div_iff_of_pos_right hn').mpr (by linarith)
  linarith

/-- The progress values `processFile` emits for one file. -/
def fileProgressList (f : PdfFileModel) (idx total : Nat) : List Int :=
  if f.isPdf then
    match f.openResult with
    | .ok pc => (List.range' 1 pc).map (fun i => progressValue idx i pc total)
    | .error _ => []
  else []

/-- Progress values of a whole run: files in order, starting at index
`idx`. -/
def runProgressFrom (total : Nat) : List PdfFileModel → Nat → List Int
  | [], _ => []
  | f :: fs, idx => fileProgressList f idx total ++ runProgressFrom total fs (idx + 1)

theorem take_append_min {α : Type} (l₁ l₂ : List α) (n : Nat) :
    (l₁ ++ l₂).take (min n l₁.length) = l₁.take n := by
  rw [List.take_append_eq_append_take]
  have h0 : min n l₁.length - l₁.length = 0 := by omega
  rw [h0, List.take_zero, List.append_nil]
  rcases Nat.le_total n l₁.length with h | h
  · rw [Nat.min_eq_left h]
  · rw [Nat.min_eq_right h, List.take_length, List.take_of_length_le h]

theorem take_append_add {α : Type} (l₁ l₂ : List α) (n : Nat) :
    (l₁ ++ l₂).take (l₁.length + n) = l₁ ++ l₂.take n := by
  rw [List.take_append_eq_append_take,
    List.take_of_length_le (Nat.le_add_right _ _), Nat.add_sub_cancel_left]

theorem pageStep_error (f : PdfFileModel) (si tf pc i : Nat) (st : AppState)
    (e : String) (h : f.render i = .error e) :
    pageStep f si tf pc i st = .error (st, e) := by
  unfold pageStep
  rw [h]

theorem pageStep_ok_trace (f : PdfFileModel) (si tf pc i : Nat) (st : AppState)
    (u : Unit) (h : f.render i = .ok u) :
    ∃ st1, pageStep f si tf pc i st = .ok st1 ∧
      st1.progressTrace = st.progressTrace ++ [progressValue si i pc tf] := by
  unfold pageStep
  rw [h]
  cases hext : f.extract i with
  | ok d => exact ⟨_, rfl, rfl⟩
  | error e => exact ⟨_, rfl, rfl⟩

theorem pagesLoop_cons_ok (f : PdfFileModel) (si tf pc i : Nat) (rest : List Nat)
    (st st1 : AppState) (h : pageStep f si tf pc i st = .ok st1) :
    pagesLoop f si tf pc (i :: rest) st = pagesLoop f si tf pc rest st1 := by
  conv_lhs => rw [pagesLoop]
  rw [h]

theorem pagesLoop_cons_error (f : PdfFileModel) (si tf pc i : Nat)
    (rest : List Nat) (st s : AppState) (e : String)
    (h : pageStep f si tf pc i st = .error (s, e)) :
    pagesLoop f si tf pc (i :: rest) st = .error (s, e) := by
  conv_lhs => rw [pagesLoop]
  rw [h]

theorem pagesLoop_trace (f : PdfFileModel) (si tf pc : Nat) :
    ∀ (l : List Nat) (st : AppState),
      (∀ st', pagesLoop f si tf pc l st = .ok st' →
        st'.progressTrace
          = st.progressTrace ++ l.map (fun i => progressValue si i pc tf)) ∧
      (∀ s e, pagesLoop f si tf pc l st = .error (s, e) →
        ∃ n, s.progressTrace
          = st.progressTrace ++ (l.map (fun i => progressValue si i pc tf)).take n) := by
  intro l
  induction l with
  | nil =>
    intro st
    constructor
    · intro st' h
      injection h with h
      subst h
      simp
    · intro s e h
      cases h
  | cons i rest ih =>
    intro st
    constructor
    · intro st' hok
      cases hr : f.render i with
      | error e =>
        rw [pagesLoop_cons_error f si tf pc i rest st st e
          (pageStep_error f si tf pc i st e hr)] at hok
        cases hok
      | ok u =>
        obtain ⟨st1, hstep, htr⟩ := pageStep_ok_trace f si tf pc i st u hr
        rw [pagesLoop_cons_ok f si tf pc i rest st st1 hstep] at hok
        rw [(ih st1).1 st' hok, htr, List.map_cons]
        simp [List.append_assoc]
    · intro s e herr
      cases hr : f.render i with
      | error e0 =>
        rw [pagesLoop_cons_error f si tf pc i rest st st e0
          (pageStep_error f si tf pc i st e0 hr)] at herr
        injection herr with herr
        have hs : st = s := congrArg Prod.fst herr
        subst hs
        exact ⟨0, by simp⟩
      | ok u =>
        obtain ⟨st1, hstep, htr⟩ := pageStep_ok_trace f si tf pc i st u hr
        rw [pagesLoop_cons_ok f si tf pc i rest st st1 hstep] at herr
        obtain ⟨n, hn⟩ := (ih st1).2 s e herr
        refine ⟨n + 1, ?_⟩
        rw [hn, htr, List.map_cons, List.take_succ_cons]
        simp [List.append_assoc]

theorem processFile_not_pdf (f : PdfFileModel) (idx total : Nat) (st : AppState)
    (h : f.isPdf = false) : processFile f idx total st = .ok st := by
  unfold processFile
  rw [h]
  rfl

theorem processFile_open_error (f : PdfFileModel) (idx total : Nat)
    (st : AppState) (e : String) (hpdf : f.isPdf = true)
    (h : f.openResult = .error e) : processFile f idx total st = .error (st, e) := by
  unfold processFile
  rw [hpdf, h]
  rfl

theorem processFile_open_ok (f : PdfFileModel) (idx total : Nat) (st : AppState)
    (pc : Nat) (hpdf : f.isPdf = true) (h : f.openResult = .ok pc) :
    processFile f idx total st
      = pagesLoop f idx total pc (List.range' 1 pc) st := by
  conv_lhs => rw [processFile]
  rw [hpdf, if_pos rfl, h]

theorem fileProgressList_not_pdf (f : PdfFileModel) (idx total : Nat)
    (h : f.isPdf = false) : fileProgressList f idx total = [] := by
  unfold fileProgressList
  rw [h]
  rfl

theorem fileProgressList_open_error (f : PdfFileModel) (idx total : Nat)
    (e : String) (hpdf : f.isPdf = true) (h : f.openResult = .error e) :
    fileProgressList f idx total = [] := by
  unfold fileProgressList
  rw [hpdf, h]
  rfl

theorem fileProgressList_open_ok (f : PdfFileModel) (idx total : Nat) (pc : Nat)
    (hpdf : f.isPdf = true) (h : f.openResult = .ok pc) :
    fileProgressList f idx total
      = (List.range' 1 pc).map (fun i => progressValue idx i pc total) := by
  unfold fileProgressList
  rw [hpdf, h]
  rfl

theorem processFile_trace (f : PdfFileModel) (idx total : Nat) (st : AppState) :
    (∀ st', processFile f idx total st = .ok st' →
      st'.progressTrace = st.progressTrace ++ fileProgressList f idx total) ∧
    (∀ s e, processFile f idx total st = .error (s, e) →
      ∃ n, s.progressTrace
        = st.progressTrace ++ (fileProgressList f idx total).take n) := by
  by_cases hpdf : f.isPdf = true
  · cases hopen : f.openResult with
    | error e0 =>
      rw [fileProgressList_open_error f idx total e0 hpdf hopen]
      constructor
      · intro st' h
        rw [processFile_open_error f idx total st e0 hpdf hopen] at h
        cases h
      · intro s e h
        rw [processFile_open_error f idx total st e0 hpdf hopen] at h
        injection h with h
        have hs : st = s := congrArg Prod.fst h
        subst hs
        exact ⟨0, by simp⟩
    | ok pc =>
      rw [fileProgressList_open_ok f idx total pc hpdf hopen]
      constructor
      · intro st' h
        rw [processFile_open_ok f idx total st pc hpdf hopen] at h
        exact (pagesLoop_trace f idx total pc (List.range' 1 pc) st).1 st' h
      · intro s e h
        rw [processFile_open_ok f idx total st pc hpdf hopen] at h
        exact (pagesLoop_trace f idx total pc (List.range' 1 pc) st).2 s e h
  · have hpdf' : f.isPdf = false := by
      cases hb : f.isPdf
      · rfl
      · exact absurd hb hpdf
    rw [fileProgressList_not_pdf f idx total hpdf']
    constructor
    · intro st' h
      rw [processFile_not_pdf f idx total st hpdf'] at h
      injection h with h
      subst h
      simp
    · intro s e h
      rw [processFile_not_pdf f idx total st hpdf'] at h
      cases h

theorem filesLoop_trace (total : Nat) :
    ∀ (fs : List PdfFileModel) (idx : Nat) (st : AppState),
      (∀ st', filesLoop total fs idx st = .ok st' →
        st'.progressTrace = st.progressTrace ++ runProgressFrom total fs idx) ∧
      (∀ s e, filesLoop total fs idx st = .error (s, e) →
        ∃ n, s.progressTrace
          = st.progressTrace ++ (runProgressFrom total fs idx).take n) := by
  intro fs
  induction fs with
  | nil =>
    intro idx st
    constructor
    · intro st' h
      injection h with h
      subst h
      simp [runProgressFrom]
    · intro s e h
      cases h
  | cons f fs ih =>
    intro idx st
    have hcons : runProgressFrom total (f :: fs) idx
        = fileProgressList f idx total ++ runProgressFrom total fs (idx + 1) := rfl
    constructor
    · intro st' hok
      cases hpf : processFile f idx total st with
      | error se =>
        rw [show filesLoop total (f :: fs) idx st = .error se by
          conv_lhs => rw [filesLoop]
          rw [hpf]] at hok
        cases hok
      | ok st1 =>
        rw [show filesLoop total (f :: fs) idx st = filesLoop total fs (idx + 1) st1 by
          conv_lhs => rw [filesLoop]
          rw [hpf]] at hok
        rw [(ih (idx + 1) st1).1 st' hok, (processFile_trace f idx total st).1 st1 hpf,
          hcons, List.append_assoc]
    · intro s e herr
      cases hpf : processFile f idx total st with
      | error se =>
        obtain ⟨s0, e0⟩ := se
        rw [show filesLoop total (f :: fs) idx st = .error (s0, e0) by
          conv_lhs => rw [filesLoop]
          rw [hpf]] at herr
        injection herr with herr
        have hs : s0 = s := congrArg Prod.fst herr
        have he : e0 = e := congrArg Prod.snd herr
        subst hs
        subst he
        obtain ⟨n, hn⟩ := (processFile_trace f idx total st).2 s0 e0 hpf
        refine ⟨min n (fileProgressList f idx total).length, ?_⟩
        rw [hcons, take_append_min]
        exact hn
      | ok st1 =>
        rw [show filesLoop total (f :: fs) idx st = filesLoop total fs (idx + 1) st1 by
          conv_lhs => rw [filesLoop]
          rw [hpf]] at herr
        obtain ⟨n, hn⟩ := (ih (idx + 1) st1).2 s e herr
        refine ⟨(fileProgressList f idx total).length + n, ?_⟩
        rw [hcons, take_append_add, hn,
          (processFile_trace f idx total st).1 st1 hpf, List.append_assoc]

theorem chain_fileProgressList (f : PdfFileModel) (idx total : Nat)
    (hn : 1 ≤ total) :
    List.Chain' (fun a b => a ≤ b) (fileProgressList f idx total) := by
  by_cases hpdf : f.isPdf = true
  · cases hopen : f.openResult with
    | error e =>
      rw [fileProgressList_open_error f idx total e hpdf hopen]
      exact List.chain'_nil
    | ok pc =>
      rw [fileProgressList_open_ok f idx total pc hpdf hopen]
      cases pc with
      | zero => exact List.chain'_nil
      | succ m =>
        rw [List.chain'_iff_pairwise, List.pairwise_map]
        apply List.Pairwise.imp ?_ (List.pairwise_lt_range' 1 (m + 1))
        intro a b hab
        exact progressValue_mono_page idx (m + 1) total a b (Nat.le_of_lt hab)
          (Nat.succ_le_succ (Nat.zero_le m)) hn
  · have hpdf' : f.isPdf = false := by
      cases hb : f.isPdf
      · rfl
      · exact absurd hb hpdf
    rw [fileProgressList_not_pdf f idx total hpdf']
    exact List.chain'_nil

theorem fileProgressList_bounds (f : PdfFileModel) (idx total : Nat)
    (hn : 1 ≤ total) :
    ∀ v ∈ fileProgressList f idx total,
      boundVal idx total ≤ v ∧ v ≤ boundVal (idx + 1) total := by
  intro v hv
  by_cases hpdf : f.isPdf = true
  · cases hopen : f.openResult with
    | error e =>
      rw [fileProgressList_open_error f idx total e hpdf hopen] at hv
      cases hv
    | ok pc =>
      rw [fileProgressList_open_ok f idx total pc hpdf hopen] at hv
      rw [List.mem_map] at hv
      obtain ⟨i, hi, rfl⟩ := hv
      rw [List.mem_range'_1] at hi
      have hpc : 1 ≤ pc := by omega
      have hile : i ≤ pc := by omega
      exact ⟨progressValue_lb idx i pc total hn,
        progressValue_ub idx i pc total hile hpc hn⟩
  · have hpdf' : f.isPdf = false := by
      cases hb : f.isPdf
      · rfl
      · exact absurd hb hpdf
    rw [fileProgressList_not_pdf f idx total hpdf'] at hv
    cases hv

theorem chain_runProgressFrom (total : Nat) (hn : 1 ≤ total) :
    ∀ (fs : List PdfFileModel) (idx : Nat), idx + fs.length ≤ total →
      List.Chain' (fun a b => a ≤ b) (runProgressFrom total fs idx) ∧
      ∀ v ∈ runProgressFrom total fs idx,
        boundVal idx total ≤ v ∧ v ≤ 100 := by
  intro fs
  induction fs with
  | nil =>
    intro idx hle
    exact ⟨List.chain'_nil, fun v hv => absurd hv (List.not_mem_nil v)⟩
  | cons f fs ih =>
    intro idx hle
    have hlen : (f :: fs).length = fs.length + 1 := rfl
    have hidx1 : idx + 1 ≤ total := by rw [hlen] at hle; omega
    obtain ⟨ihc, ihb⟩ := ih (idx + 1) (by rw [hlen] at hle; omega)
    have hA := chain_fileProgressList f idx total hn
    have hAb := fileProgressList_bounds f idx total hn
    have hcons : runProgressFrom total (f :: fs) idx
        = fileProgressList f idx total ++ runProgressFrom total fs (idx + 1) := rfl
    constructor
    · rw [hcons, List.chain'_append]
      refine ⟨hA, ihc, ?_⟩
      intro x hx y hy
      have hxm : x ∈ fileProgressList f idx total := List.mem_of_mem_getLast? hx
      have hym : y ∈ runProgressFrom total fs (idx + 1) := List.mem_of_mem_head? hy
      exact le_trans (hAb x hxm).2 (ihb y hym).1
    · intro v hv
      rw [hcons] at hv
      rcases List.mem_append.mp hv with hva | hvb
      · exact ⟨(hAb v hva).1,
          le_trans (hAb v hva).2 (boundVal_le_100 (idx + 1) total hidx1 hn)⟩
      · exact ⟨le_trans (boundVal_mono idx (idx + 1) total (Nat.le_succ idx) hn)
          (ihb v hvb).1, (ihb v hvb).2⟩

theorem chain_zero_append_100 (T : List Int)
    (hc : List.Chain' (fun a b => a ≤ b) T)
    (hb : ∀ v ∈ T, (0 : Int) ≤ v ∧ v ≤ 100) :
    List.Chain' (fun a b => a ≤ b) (0 :: (T ++ [100])) := by
  rw [List.chain'_cons']
  constructor
  · intro y hy
    have hym : y ∈ T ++ [100] := List.mem_of_mem_head? hy
    rcases List.mem_append.mp hym with h | h
    · exact (hb y h).1
    · rw [List.mem_singleton] at h
      subst h
      norm_num
  · rw [List.chain'_append]
    refine ⟨hc, List.chain'_singleton _, ?_⟩
    intro x hx y hy
    have hxm : x ∈ T := List.mem_of_mem_getLast? hx
    have hy' : (100 : Int) = y := by simpa using hy
    subst hy'
    exact (hb x hxm).2

theorem startExtraction_trace (files : List PdfFileModel) (st : AppState)
    (hlen : ¬ files.length = 0) :
    (∀ s, filesLoop files.length files 0 (setProgress (resetState st) 0) = .ok s →
      (startExtraction files st).progressTrace = s.progressTrace ++ [100]) ∧
    (∀ s e, filesLoop files.length files 0 (setProgress (resetState st) 0)
        = .error (s, e) →
      (startExtraction files st).progressTrace = s.progressTrace ++ [100]) := by
  unfold startExtraction
  rw [if_neg hlen]
  cases hloop : filesLoop files.length files 0 (setProgress (resetState st) 0) with
  | ok s =>
    constructor
    · intro s' hs'
      injection hs' with hs'
      subst hs'
      rfl
    · intro s' e' hs'
      cases hs'
  | error se =>
    obtain ⟨s, e⟩ := se
    constructor
    · intro s' hs'
      cases hs'
    · intro s' e' hs'
      injection hs' with hs'
      have h1 : s = s' := congrArg Prod.fst hs'
      subst h1
      rfl

/-- C8 -- every page (extraction success or failure alike) pushes progress
`round(((startIndex + i / pagesCount) / totalFiles) * 100)`: a complete
run's trace is exactly 0, those per-page values file by file, then the
final 100; an aborted run's trace is a prefix of the page values (plus the
final 100); and in every case the trace is monotonically non-decreasing. -/
theorem c8_progress_formula_monotone (files : List PdfFileModel)
    (st : AppState) (h : files ≠ []) :
    (∀ s, filesLoop files.length files 0 (setProgress (resetState st) 0)
        = .ok s →
      (startExtraction files st).progressTrace
        = 0 :: (runProgressFrom files.length files 0 ++ [100])) ∧
    (∃ n, (startExtraction files st).progressTrace
      = 0 :: ((runProgressFrom files.length files 0).take n ++ [100])) ∧
    List.Chain' (fun a b => a ≤ b) ((startExtraction files st).progressTrace) := by
  have hlen : ¬ files.length = 0 := fun hc => h (List.eq_nil_of_length_eq_zero hc)
  have hn : 1 ≤ files.length := Nat.one_le_iff_ne_zero.mpr hlen
  have hbounds := chain_runProgressFrom files.length hn files 0 (by omega)
  have hmem0 : ∀ v ∈ runProgressFrom files.length files 0,
      (0 : Int) ≤ v ∧ v ≤ 100 := by
    intro v hv
    exact ⟨le_trans (boundVal_nonneg 0 files.length) (hbounds.2 v hv).1,
      (hbounds.2 v hv).2⟩
  cases hloop : filesLoop files.length files 0 (setProgress (resetState st) 0) with
  | ok s =>
    have hfin := (startExtraction_trace files st hlen).1 s hloop
    have htr := (filesLoop_trace files.length files 0
      (setProgress (resetState st) 0)).1 s hloop
    have hfull : (startExtraction files st).progressTrace
        = 0 :: (runProgressFrom files.length files 0 ++ [100]) := by
      rw [hfin, htr]
      try rfl
    refine ⟨?_, ?_, ?_⟩
    · intro s' hs'
      cases hs'
      exact hfull
    · exact ⟨(runProgressFrom files.length files 0).length,
        by rw [List.take_length]; exact hfull⟩
    · rw [hfull]
      exact chain_zero_append_100 _ hbounds.1 hmem0
  | error se =>
    obtain ⟨s, e⟩ := se
    have hfin := (startExtraction_trace files st hlen).2 s e hloop
    obtain ⟨n, hn'⟩ := (filesLoop_trace files.length files 0
      (setProgress (resetState st) 0)).2 s e hloop
    have hpref : (startExtraction files st).progressTrace
        = 0 :: ((runProgressFrom files.length files 0).take n ++ [100]) := by
      rw [hfin, hn']
      try rfl
    refine ⟨?_, ⟨n, hpref⟩, ?_⟩
    · intro s' hs'
      cases hs'
    · rw [hpref]
      apply chain_zero_append_100
      · exact hbounds.1.sublist (List.take_sublist n _)
      · intro v hv
        exact hmem0 v (List.mem_of_mem_take hv)

/-- A two-page file: page 1 extracts `wPage1`, page 2 fails extraction;
rendering always succeeds. -/
def wOkFile : PdfFileModel :=
  { isPdf := true, openResult := Except.ok 2,
    render := fun _ => Except.ok (),
    extract := fun i => if i = 1 then Except.ok wPage1 else Except.error "empty" }

/-- The state `processFile wOkFile 0 1` reaches from `wState`. -/
def wAfter : AppState :=
  { results := [mkRecord 1 wPage1], isProcessing := false,
    progress := progressValue 0 2 2 1, error := none,
    progressTrace := [progressValue 0 1 2 1, progressValue 0 2 2 1] }

/-- Witness for C6: the file completes despite page 2's extraction failure,
and only page 1 contributes a record. -/
theorem c6_page_failure_isolation_witness :
    (processFile wOkFile 0 1 wState).isOk = true ∧
    wAfter.results = wState.results
      ++ (List.range' 1 2).filterMap (pageContribution wOkFile) := by
  have h := c6_page_failure_isolation wOkFile 0 1 2 wState (by decide) rfl rfl
  exact ⟨h.1, h.2.1 wAfter rfl⟩

/-- The state in which `startExtraction [wOkFile]`'s file loop ends. -/
def wLoopEnd : AppState :=
  { results := [mkRecord 1 wPage1], isProcessing := true,
    progress := progressValue 0 2 2 1, error := none,
    progressTrace := [0, progressValue 0 1 2 1, progressValue 0 2 2 1] }

/-- Witness for C8: a one-file two-page run's trace is 0, the two per-page
round values, then 100 — and it is monotone. -/
theorem c8_progress_formula_monotone_witness :
    List.Chain' (fun a b => a ≤ b)
      ((startExtraction [wOkFile] wState).progressTrace) ∧
    (startExtraction [wOkFile] wState).progressTrace
      = 0 :: (runProgressFrom 1 [wOkFile] 0 ++ [100]) := by
  have h := c8_progress_formula_monotone [wOkFile] wState (List.cons_ne_nil _ _)
  exact ⟨h.2.2, h.1 wLoopEnd rfl⟩
